import Mathlib

/-!
Verification of the grain/seed helpers of `slvrlane-creative-lib`
(`src/helpers.js`).

The pixel buffer handed to `addGrain` is `context.getImageData(...).data`:
a flat RGBA sequence, four channel values per pixel.  We embed it as
`List ℚ` — JavaScript number arithmetic on the values that occur here
(integer additions and exact halving by `* 0.5`) is exact, so rationals
model it faithfully, and out-of-range results are kept as-is (the spec
mandates that channel values are *not* clamped after jitter).

The shared random generator (`canvas-sketch-util/random`, an external
dependency, not part of this repository's sources) is embedded as an
explicit state: an infinite stream of unit draws plus a cursor that each
draw advances.
-/

/-- State of the shared seeded random generator: an infinite stream of
unit draws (each in `[0,1]`) and a cursor marking the next draw. -/
structure Rng where
  stream : ℕ → ℚ
  cursor : ℕ

/-- A generator state is valid when every unit draw lies in `[0,1]`. -/
def Rng.Valid (s : Rng) : Prop := ∀ n, 0 ≤ s.stream n ∧ s.stream n ≤ 1

/-- Modelled from the spec: `random.range(lo, hi)` of
`canvas-sketch-util/random` (an external dependency whose code is not in
this repository) returns a uniform random value in `[lo, hi]` and
advances the shared generator's internal cursor by one.  We realise the
draw as `lo + (hi - lo) * u` where `u` is the next unit draw. -/
def Rng.range (lo hi : ℚ) (s : Rng) : ℚ × Rng :=
  (lo + (hi - lo) * s.stream s.cursor, ⟨s.stream, s.cursor + 1⟩)

/-- `colorGrain` (src/helpers.js lines 68–80): per pixel, each of the
three color channels gets its own independent draw from
`random.range(-25, 25)` added; the alpha channel is set to 255. -/
def colorGrain : List ℚ → Rng → List ℚ × Rng
  | r :: g :: b :: _a :: rest, s =>
    let (v1, s1) := Rng.range (-25) 25 s
    let (v2, s2) := Rng.range (-25) 25 s1
    let (v3, s3) := Rng.range (-25) 25 s2
    let (tail, s4) := colorGrain rest s3
    ((r + v1) :: (g + v2) :: (b + v3) :: 255 :: tail, s4)
  | rest, s => (rest, s)

/-- `parallelGrain` (src/helpers.js lines 82–93): per pixel, one draw
`variant = random.range(-15, 15)` is added to all of r, g, b; the alpha
channel is set to 255. -/
def parallelGrain : List ℚ → Rng → List ℚ × Rng
  | r :: g :: b :: _a :: rest, s =>
    let (variant, s1) := Rng.range (-15) 15 s
    let (tail, s2) := parallelGrain rest s1
    ((r + variant) :: (g + variant) :: (b + variant) :: 255 :: tail, s2)
  | rest, s => (rest, s)

/-- `redGrain` (src/helpers.js lines 94–104): per pixel, one draw
`variant = random.range(50, 100)`; r += variant, g -= variant * 0.5,
b -= variant * 0.5; the alpha channel is left untouched. -/
def redGrain : List ℚ → Rng → List ℚ × Rng
  | r :: g :: b :: a :: rest, s =>
    let (variant, s1) := Rng.range 50 100 s
    let (tail, s2) := redGrain rest s1
    ((r + variant) :: (g - variant * (1/2)) :: (b - variant * (1/2)) :: a :: tail, s2)
  | rest, s => (rest, s)

/-- `invert` (src/helpers.js lines 106–113): per pixel, each of r, g, b
is replaced by `255 -` its value; the alpha channel is left untouched.
No random draw is consumed. -/
def invert : List ℚ → List ℚ
  | r :: g :: b :: a :: rest =>
    (255 - r) :: (255 - g) :: (255 - b) :: a :: invert rest
  | rest => rest

/-- Default value of `addGrain`'s `style` parameter
(src/helpers.js line 63). -/
def addGrainStyleDefault : String := "parallelGrain"

/-- `addGrain` (src/helpers.js lines 63–125): dispatches on the `style`
string over the four recognised modes; any other string falls through
the `switch` and the buffer is returned unchanged, with no draw taken
from the generator. -/
def addGrain (style : String) (buf : List ℚ) (s : Rng) : List ℚ × Rng :=
  match style with
  | "colorful" => colorGrain buf s
  | "parallel" => parallelGrain buf s
  | "red" => redGrain buf s
  | "invert" => (invert buf, s)
  | _ => (buf, s)

/-- A JavaScript value that may be passed as `initiateSeed`'s `seed`
argument: a number or a string. -/
inductive JSVal where
  | num : ℚ → JSVal
  | str : String → JSVal
deriving DecidableEq

/-- JavaScript truthiness test on a seed value: the number 0 and the
empty string are falsy (`seed === 0 || !seed`, src/helpers.js line 20). -/
def JSVal.falsy : JSVal → Bool
  | num q => q == 0
  | str s => s == ""

/-- JavaScript `String(x)` conversion, parameterised by the host's
number-to-string conversion `f`. -/
def jsString (f : ℚ → String) : JSVal → String
  | JSVal.num q => f q
  | JSVal.str s => s

/-- `initiateSeed` (src/helpers.js lines 18–25): for a falsy seed,
returns `String(Math.floor(Math.random() * 1000000))`, where `m` models
the `Math.random()` draw (a source separate from the shared seeded
generator); otherwise returns `String(seed)`.  The function never calls
into `canvas-sketch-util/random`, so the shared generator state `s` is
passed through untouched. -/
def initiateSeed (f : ℚ → String) (seed : JSVal) (m : ℚ) (s : Rng) :
    String × Rng :=
  if seed.falsy then (f ((⌊m * 1000000⌋ : ℤ) : ℚ), s)
  else (jsString f seed, s)

/-- Per-pixel characterisation of `parallelGrain`: pixel `p`'s three
color channels each get the single draw taken at cursor position
`s.cursor + p` added, and its alpha channel is set to 255. -/
theorem parallelGrain_get? : ∀ (buf : List ℚ) (s : Rng), buf.length % 4 = 0 → ∀ p : ℕ,
    (parallelGrain buf s).1.get? (4 * p) =
      (buf.get? (4 * p)).map (fun v => v + (Rng.range (-15) 15 ⟨s.stream, s.cursor + p⟩).1) ∧
    (parallelGrain buf s).1.get? (4 * p + 1) =
      (buf.get? (4 * p + 1)).map (fun v => v + (Rng.range (-15) 15 ⟨s.stream, s.cursor + p⟩).1) ∧
    (parallelGrain buf s).1.get? (4 * p + 2) =
      (buf.get? (4 * p + 2)).map (fun v => v + (Rng.range (-15) 15 ⟨s.stream, s.cursor + p⟩).1) ∧
    (4 * p + 3 < buf.length → (parallelGrain buf s).1.get? (4 * p + 3) = some 255)
  | r :: g :: b :: a :: rest, s, h, 0 => by
    simp [parallelGrain, Rng.range]
  | r :: g :: b :: a :: rest, s, h, p + 1 => by
    have h4 : rest.length % 4 = 0 := by
      simp only [List.length_cons] at h; omega
    have ih := parallelGrain_get? rest ⟨s.stream, s.cursor + 1⟩ h4 p
    have e : s.cursor + 1 + p = s.cursor + (p + 1) := by omega
    simp only [Rng.range] at ih ⊢
    simp only [e] at ih
    obtain ⟨ih1, ih2, ih3, ih4⟩ := ih
    have e0 : 4 * (p + 1) = 4 * p + 1 + 1 + 1 + 1 := by ring
    simp only [parallelGrain, Rng.range, e0, List.get?_cons_succ, List.length_cons]
    refine ⟨ih1, ih2, ih3, fun hlt => ih4 (by omega)⟩
  | [], _, _, p => by
    simp [parallelGrain]
  | [r], _, h, _ => by simp at h
  | [r, g], _, h, _ => by simp at h
  | [r, g, b], _, h, _ => by simp at h

/-- Per-pixel characterisation of `colorGrain`: pixel `p`'s three color
channels get three separate draws — taken at the consecutive cursor
positions `s.cursor + 3p`, `+ 3p + 1`, `+ 3p + 2` — added one per
channel, and its alpha channel is set to 255. -/
theorem colorGrain_get? : ∀ (buf : List ℚ) (s : Rng), buf.length % 4 = 0 → ∀ p : ℕ,
    (colorGrain buf s).1.get? (4 * p) =
      (buf.get? (4 * p)).map (fun v => v + (Rng.range (-25) 25 ⟨s.stream, s.cursor + 3 * p⟩).1) ∧
    (colorGrain buf s).1.get? (4 * p + 1) =
      (buf.get? (4 * p + 1)).map (fun v => v + (Rng.range (-25) 25 ⟨s.stream, s.cursor + 3 * p + 1⟩).1) ∧
    (colorGrain buf s).1.get? (4 * p + 2) =
      (buf.get? (4 * p + 2)).map (fun v => v + (Rng.range (-25) 25 ⟨s.stream, s.cursor + 3 * p + 2⟩).1) ∧
    (4 * p + 3 < buf.length → (colorGrain buf s).1.get? (4 * p + 3) = some 255)
  | r :: g :: b :: a :: rest, s, h, 0 => by
    simp [colorGrain, Rng.range]
  | r :: g :: b :: a :: rest, s, h, p + 1 => by
    have h4 : rest.length % 4 = 0 := by
      simp only [List.length_cons] at h; omega
    have ih := colorGrain_get? rest ⟨s.stream, s.cursor + 1 + 1 + 1⟩ h4 p
    have e : s.cursor + 1 + 1 + 1 + 3 * p = s.cursor + 3 * (p + 1) := by omega
    have e1 : s.cursor + 1 + 1 + 1 + 3 * p + 1 = s.cursor + 3 * (p + 1) + 1 := by omega
    have e2 : s.cursor + 1 + 1 + 1 + 3 * p + 2 = s.cursor + 3 * (p + 1) + 2 := by omega
    simp only [Rng.range] at ih ⊢
    simp only [e, e1, e2] at ih
    obtain ⟨ih1, ih2, ih3, ih4⟩ := ih
    have e0 : 4 * (p + 1) = 4 * p + 1 + 1 + 1 + 1 := by ring
    simp only [colorGrain, Rng.range, e0, List.get?_cons_succ, List.length_cons]
    refine ⟨ih1, ih2, ih3, fun hlt => ih4 (by omega)⟩
  | [], _, _, p => by
    simp [colorGrain]
  | [r], _, h, _ => by simp at h
  | [r, g], _, h, _ => by simp at h
  | [r, g, b], _, h, _ => by simp at h

/-- Per-pixel characterisation of `redGrain`: for pixel `p` a single
draw `v` is taken at cursor position `s.cursor + p`; the red channel
gets `+ v`, green and blue get `- v * 0.5`, alpha is untouched. -/
theorem redGrain_get? : ∀ (buf : List ℚ) (s : Rng), buf.length % 4 = 0 → ∀ p : ℕ,
    (redGrain buf s).1.get? (4 * p) =
      (buf.get? (4 * p)).map (fun v => v + (Rng.range 50 100 ⟨s.stream, s.cursor + p⟩).1) ∧
    (redGrain buf s).1.get? (4 * p + 1) =
      (buf.get? (4 * p + 1)).map (fun v => v - (Rng.range 50 100 ⟨s.stream, s.cursor + p⟩).1 * (1/2)) ∧
    (redGrain buf s).1.get? (4 * p + 2) =
      (buf.get? (4 * p + 2)).map (fun v => v - (Rng.range 50 100 ⟨s.stream, s.cursor + p⟩).1 * (1/2)) ∧
    (redGrain buf s).1.get? (4 * p + 3) = buf.get? (4 * p + 3)
  | r :: g :: b :: a :: rest, s, h, 0 => by
    simp [redGrain, Rng.range]
  | r :: g :: b :: a :: rest, s, h, p + 1 => by
    have h4 : rest.length % 4 = 0 := by
      simp only [List.length_cons] at h; omega
    have ih := redGrain_get? rest ⟨s.stream, s.cursor + 1⟩ h4 p
    have e : s.cursor + 1 + p = s.cursor + (p + 1) := by omega
    simp only [Rng.range] at ih ⊢
    simp only [e] at ih
    obtain ⟨ih1, ih2, ih3, ih4⟩ := ih
    have e0 : 4 * (p + 1) = 4 * p + 1 + 1 + 1 + 1 := by ring
    simp only [redGrain, Rng.range, e0, List.get?_cons_succ]
    exact ⟨ih1, ih2, ih3, ih4⟩
  | [], _, _, p => by
    simp [redGrain]
  | [r], _, h, _ => by simp at h
  | [r, g], _, h, _ => by simp at h
  | [r, g, b], _, h, _ => by simp at h

/-- Per-pixel characterisation of `invert`: the three color channels of
every pixel are replaced by `255 -` their value, alpha is untouched. -/
theorem invert_get? : ∀ (buf : List ℚ), buf.length % 4 = 0 → ∀ p : ℕ,
    (invert buf).get? (4 * p) = (buf.get? (4 * p)).map (fun v => 255 - v) ∧
    (invert buf).get? (4 * p + 1) = (buf.get? (4 * p + 1)).map (fun v => 255 - v) ∧
    (invert buf).get? (4 * p + 2) = (buf.get? (4 * p + 2)).map (fun v => 255 - v) ∧
    (invert buf).get? (4 * p + 3) = buf.get? (4 * p + 3)
  | r :: g :: b :: a :: rest, h, 0 => by
    simp [invert]
  | r :: g :: b :: a :: rest, h, p + 1 => by
    have h4 : rest.length % 4 = 0 := by
      simp only [List.length_cons] at h; omega
    obtain ⟨ih1, ih2, ih3, ih4⟩ := invert_get? rest h4 p
    have e0 : 4 * (p + 1) = 4 * p + 1 + 1 + 1 + 1 := by ring
    simp only [invert, e0, List.get?_cons_succ]
    exact ⟨ih1, ih2, ih3, ih4⟩
  | [], _, p => by simp [invert]
  | [r], h, _ => by simp at h
  | [r, g], h, _ => by simp at h
  | [r, g, b], h, _ => by simp at h

/-- `invert` is an involution on any buffer. -/
theorem invert_invert : ∀ buf : List ℚ, invert (invert buf) = buf
  | r :: g :: b :: a :: rest => by
    simp [invert, invert_invert rest]
  | [] => rfl
  | [r] => rfl
  | [r, g] => rfl
  | [r, g, b] => rfl

/-- `parallelGrain` keeps the draw stream intact and advances the cursor
by exactly one draw per full pixel. -/
theorem parallelGrain_rng : ∀ (buf : List ℚ) (s : Rng),
    (parallelGrain buf s).2.stream = s.stream ∧
    (parallelGrain buf s).2.cursor = s.cursor + buf.length / 4
  | r :: g :: b :: a :: rest, s => by
    obtain ⟨ih1, ih2⟩ := parallelGrain_rng rest ⟨s.stream, s.cursor + 1⟩
    simp only [parallelGrain, Rng.range] at ih1 ih2 ⊢
    simp only [List.length_cons, ih1, ih2]
    exact ⟨by simp, by omega⟩
  | [], s => by simp [parallelGrain]
  | [r], s => by simp [parallelGrain]
  | [r, g], s => by simp [parallelGrain]
  | [r, g, b], s => by simp [parallelGrain]

/-- `colorGrain` keeps the draw stream intact and advances the cursor by
exactly three draws per full pixel. -/
theorem colorGrain_rng : ∀ (buf : List ℚ) (s : Rng),
    (colorGrain buf s).2.stream = s.stream ∧
    (colorGrain buf s).2.cursor = s.cursor + 3 * (buf.length / 4)
  | r :: g :: b :: a :: rest, s => by
    obtain ⟨ih1, ih2⟩ := colorGrain_rng rest ⟨s.stream, s.cursor + 1 + 1 + 1⟩
    simp only [colorGrain, Rng.range] at ih1 ih2 ⊢
    simp only [List.length_cons, ih1, ih2]
    exact ⟨by simp, by omega⟩
  | [], s => by simp [colorGrain]
  | [r], s => by simp [colorGrain]
  | [r, g], s => by simp [colorGrain]
  | [r, g, b], s => by simp [colorGrain]

/-- `redGrain` keeps the draw stream intact and advances the cursor by
exactly one draw per full pixel. -/
theorem redGrain_rng : ∀ (buf : List ℚ) (s : Rng),
    (redGrain buf s).2.stream = s.stream ∧
    (redGrain buf s).2.cursor = s.cursor + buf.length / 4
  | r :: g :: b :: a :: rest, s => by
    obtain ⟨ih1, ih2⟩ := redGrain_rng rest ⟨s.stream, s.cursor + 1⟩
    simp only [redGrain, Rng.range] at ih1 ih2 ⊢
    simp only [List.length_cons, ih1, ih2]
    exact ⟨by simp, by omega⟩
  | [], s => by simp [redGrain]
  | [r], s => by simp [redGrain]
  | [r, g], s => by simp [redGrain]
  | [r, g, b], s => by simp [redGrain]

/-- A draw of `random.range lo hi` from a valid generator state lies in
the closed interval `[lo, hi]`. -/
theorem Rng.range_mem (lo hi : ℚ) (s : Rng) (hlo : lo ≤ hi) (hs : s.Valid) :
    lo ≤ (Rng.range lo hi s).1 ∧ (Rng.range lo hi s).1 ≤ hi := by
  obtain ⟨h0, h1⟩ := hs s.cursor
  have hv : (Rng.range lo hi s).1 = lo + (hi - lo) * s.stream s.cursor := rfl
  rw [hv]
  constructor <;> nlinarith

/-- Claim C2: for the 1×1 buffer `[0,0,0,255]`, mode `"red"` with the
random draw fixed at 100 (unit draw 1, so `50 + (100-50)*1 = 100`)
produces `[100, -50, -50, 255]`; the out-of-range `-50` values are
preserved unclamped. -/
theorem addGrain_red_scenario :
    (addGrain "red" [0, 0, 0, 255] ⟨fun _ => 1, 0⟩).1 = [100, -50, -50, 255] ∧
    (addGrain "red" [0, 0, 0, 255] ⟨fun _ => 1, 0⟩).1.get? 1 = some (-50) ∧
    ¬ (0 ≤ (-50 : ℚ)) := by
  refine ⟨?_, ?_, by norm_num⟩ <;>
    simp [addGrain, redGrain, Rng.range] <;> norm_num

/-- Claim C3: for every buffer, every generator state and every mode
string outside `{"colorful", "parallel", "red", "invert"}`, `addGrain`
returns the buffer byte-for-byte unchanged and the generator
untouched (silent no-op, no error path exists). -/
theorem addGrain_unrecognized_noop (style : String) (buf : List ℚ) (s : Rng)
    (h : style ∉ ["colorful", "parallel", "red", "invert"]) :
    addGrain style buf s = (buf, s) := by
  simp only [List.mem_cons, List.not_mem_nil, or_false, not_or] at h
  obtain ⟨h1, h2, h3, h4⟩ := h
  unfold addGrain
  split
  · exact absurd rfl h1
  · exact absurd rfl h2
  · exact absurd rfl h3
  · exact absurd rfl h4
  · rfl

/-- Witness for C3 at the concrete mode `"nonsense"`. -/
theorem addGrain_unrecognized_noop_witness :
    addGrain "nonsense" [1, 2, 3, 4] ⟨fun _ => 0, 0⟩ = ([1, 2, 3, 4], ⟨fun _ => 0, 0⟩) :=
  addGrain_unrecognized_noop "nonsense" [1, 2, 3, 4] ⟨fun _ => 0, 0⟩ (by decide)

/-- Claim C9: the default `style` is the string `"parallelGrain"`, which
is none of the four recognised modes, so calling `addGrain` with the
default style leaves every buffer and the generator unchanged instead of
applying the parallel jitter its name suggests. -/
theorem addGrain_default_style_noop :
    addGrainStyleDefault ∉ ["colorful", "parallel", "red", "invert"] ∧
    ∀ (buf : List ℚ) (s : Rng), addGrain addGrainStyleDefault buf s = (buf, s) := by
  constructor
  · decide
  · intro buf s
    rfl

/-- Claim C1: under mode `"invert"`, every pixel's red, green and blue
channels are replaced by `255 -` their value and its alpha channel is
left unchanged; applying `"invert"` twice returns the original buffer
exactly (involution); and the 2×1 buffer `[10,20,30,255, 200,200,200,0]`
is mapped to `[245,235,225,255, 55,55,55,0]`. -/
theorem addGrain_invert_spec (buf : List ℚ) (s : Rng) (h : buf.length % 4 = 0) :
    (∀ p : ℕ,
      (addGrain "invert" buf s).1.get? (4 * p) = (buf.get? (4 * p)).map (fun v => 255 - v) ∧
      (addGrain "invert" buf s).1.get? (4 * p + 1) = (buf.get? (4 * p + 1)).map (fun v => 255 - v) ∧
      (addGrain "invert" buf s).1.get? (4 * p + 2) = (buf.get? (4 * p + 2)).map (fun v => 255 - v) ∧
      (addGrain "invert" buf s).1.get? (4 * p + 3) = buf.get? (4 * p + 3)) ∧
    (addGrain "invert" (addGrain "invert" buf s).1 (addGrain "invert" buf s).2).1 = buf ∧
    (addGrain "invert" [10, 20, 30, 255, 200, 200, 200, 0] s).1 =
      [245, 235, 225, 255, 55, 55, 55, 0] := by
  refine ⟨fun p => invert_get? buf h p, invert_invert buf, ?_⟩
  show invert [10, 20, 30, 255, 200, 200, 200, 0] = _
  norm_num [invert]

/-- Witness for C1 at the concrete buffer `[10, 20, 30, 255]`. -/
theorem addGrain_invert_spec_witness :
    (addGrain "invert" (addGrain "invert" [10, 20, 30, 255] ⟨fun _ => 0, 0⟩).1
        (addGrain "invert" [10, 20, 30, 255] ⟨fun _ => 0, 0⟩).2).1 = [10, 20, 30, 255] :=
  (addGrain_invert_spec [10, 20, 30, 255] ⟨fun _ => 0, 0⟩ (by decide)).2.1

/-- Claim C4: under modes `"colorful"` and `"parallel"`, the alpha
channel of every pixel of the output is exactly 255, regardless of the
input alpha values. -/
theorem addGrain_alpha255 (buf : List ℚ) (s : Rng) (h : buf.length % 4 = 0)
    (p : ℕ) (hp : 4 * p + 3 < buf.length) :
    (addGrain "colorful" buf s).1.get? (4 * p + 3) = some 255 ∧
    (addGrain "parallel" buf s).1.get? (4 * p + 3) = some 255 :=
  ⟨(colorGrain_get? buf s h p).2.2.2 hp, (parallelGrain_get? buf s h p).2.2.2 hp⟩

/-- Witness for C4 at the buffer `[1, 2, 3, 7]` (input alpha 7). -/
theorem addGrain_alpha255_witness :
    (addGrain "colorful" [1, 2, 3, 7] ⟨fun _ => 0, 0⟩).1.get? 3 = some 255 ∧
    (addGrain "parallel" [1, 2, 3, 7] ⟨fun _ => 0, 0⟩).1.get? 3 = some 255 :=
  addGrain_alpha255 [1, 2, 3, 7] ⟨fun _ => 0, 0⟩ (by decide) 0 (by decide)

/-- Claim C5: under mode `"parallel"`, for every pixel one random delta
`v` is drawn — the draw taken at cursor position `s.cursor + p` for
pixel `p`, one draw per pixel in total — lying in `[-15, 15]` for a
valid generator, and all three color channels are shifted by that same
`v`. -/
theorem addGrain_parallel_spec (buf : List ℚ) (s : Rng) (h : buf.length % 4 = 0)
    (hs : s.Valid) (p : ℕ) :
    ∃ v : ℚ,
      v = (Rng.range (-15) 15 ⟨s.stream, s.cursor + p⟩).1 ∧
      -15 ≤ v ∧ v ≤ 15 ∧
      (addGrain "parallel" buf s).1.get? (4 * p) = (buf.get? (4 * p)).map (fun x => x + v) ∧
      (addGrain "parallel" buf s).1.get? (4 * p + 1) = (buf.get? (4 * p + 1)).map (fun x => x + v) ∧
      (addGrain "parallel" buf s).1.get? (4 * p + 2) = (buf.get? (4 * p + 2)).map (fun x => x + v) ∧
      (addGrain "parallel" buf s).2.cursor = s.cursor + buf.length / 4 := by
  obtain ⟨h1, h2, h3, _⟩ := parallelGrain_get? buf s h p
  have hmem := Rng.range_mem (-15) 15 ⟨s.stream, s.cursor + p⟩ (by norm_num) hs
  exact ⟨_, rfl, hmem.1, hmem.2, h1, h2, h3, (parallelGrain_rng buf s).2⟩

/-- Witness for C5 at the buffer `[0, 0, 0, 0]`, constant-zero draw
stream, pixel 0. -/
theorem addGrain_parallel_spec_witness :
    ∃ v : ℚ,
      v = (Rng.range (-15) 15 ⟨fun _ => 0, 0⟩).1 ∧
      -15 ≤ v ∧ v ≤ 15 ∧
      (addGrain "parallel" [0, 0, 0, 0] ⟨fun _ => 0, 0⟩).1.get? 0 =
        (([0, 0, 0, 0] : List ℚ).get? 0).map (fun x => x + v) ∧
      (addGrain "parallel" [0, 0, 0, 0] ⟨fun _ => 0, 0⟩).1.get? 1 =
        (([0, 0, 0, 0] : List ℚ).get? 1).map (fun x => x + v) ∧
      (addGrain "parallel" [0, 0, 0, 0] ⟨fun _ => 0, 0⟩).1.get? 2 =
        (([0, 0, 0, 0] : List ℚ).get? 2).map (fun x => x + v) ∧
      (addGrain "parallel" [0, 0, 0, 0] ⟨fun _ => 0, 0⟩).2.cursor = 1 :=
  addGrain_parallel_spec [0, 0, 0, 0] ⟨fun _ => 0, 0⟩ (by decide)
    (fun n => by norm_num) 0

/-- Claim C6: under mode `"red"`, for every pixel a single random value
`v` is drawn — at cursor position `s.cursor + p` for pixel `p`, one draw
per pixel in total — lying in `[50, 100]` for a valid generator; the red
channel is increased by `v`, green and blue are each decreased by
`v * 0.5`, and the alpha channel is left unchanged. -/
theorem addGrain_red_mode_spec (buf : List ℚ) (s : Rng) (h : buf.length % 4 = 0)
    (hs : s.Valid) (p : ℕ) :
    ∃ v : ℚ,
      v = (Rng.range 50 100 ⟨s.stream, s.cursor + p⟩).1 ∧
      50 ≤ v ∧ v ≤ 100 ∧
      (addGrain "red" buf s).1.get? (4 * p) = (buf.get? (4 * p)).map (fun x => x + v) ∧
      (addGrain "red" buf s).1.get? (4 * p + 1) =
        (buf.get? (4 * p + 1)).map (fun x => x - v * (1/2)) ∧
      (addGrain "red" buf s).1.get? (4 * p + 2) =
        (buf.get? (4 * p + 2)).map (fun x => x - v * (1/2)) ∧
      (addGrain "red" buf s).1.get? (4 * p + 3) = buf.get? (4 * p + 3) ∧
      (addGrain "red" buf s).2.cursor = s.cursor + buf.length / 4 := by
  obtain ⟨h1, h2, h3, h4⟩ := redGrain_get? buf s h p
  have hmem := Rng.range_mem 50 100 ⟨s.stream, s.cursor + p⟩ (by norm_num) hs
  exact ⟨_, rfl, hmem.1, hmem.2, h1, h2, h3, h4, (redGrain_rng buf s).2⟩

/-- Witness for C6 at the buffer `[0, 0, 0, 255]`, constant-zero draw
stream, pixel 0. -/
theorem addGrain_red_mode_spec_witness :
    ∃ v : ℚ,
      v = (Rng.range 50 100 ⟨fun _ => 0, 0⟩).1 ∧
      50 ≤ v ∧ v ≤ 100 ∧
      (addGrain "red" [0, 0, 0, 255] ⟨fun _ => 0, 0⟩).1.get? 0 =
        (([0, 0, 0, 255] : List ℚ).get? 0).map (fun x => x + v) ∧
      (addGrain "red" [0, 0, 0, 255] ⟨fun _ => 0, 0⟩).1.get? 1 =
        (([0, 0, 0, 255] : List ℚ).get? 1).map (fun x => x - v * (1/2)) ∧
      (addGrain "red" [0, 0, 0, 255] ⟨fun _ => 0, 0⟩).1.get? 2 =
        (([0, 0, 0, 255] : List ℚ).get? 2).map (fun x => x - v * (1/2)) ∧
      (addGrain "red" [0, 0, 0, 255] ⟨fun _ => 0, 0⟩).1.get? 3 =
        ([0, 0, 0, 255] : List ℚ).get? 3 ∧
      (addGrain "red" [0, 0, 0, 255] ⟨fun _ => 0, 0⟩).2.cursor = 1 :=
  addGrain_red_mode_spec [0, 0, 0, 255] ⟨fun _ => 0, 0⟩ (by decide)
    (fun n => by norm_num) 0

/-- Claim C7: under mode `"colorful"`, for every pixel three separate
random values are drawn — at the three consecutive cursor positions
`s.cursor + 3p`, `+ 3p + 1`, `+ 3p + 2` for pixel `p`, three draws per
pixel in total — each lying in `[-25, 25]` for a valid generator, and
each is added to its own channel (red, green, blue respectively). -/
theorem addGrain_colorful_spec (buf : List ℚ) (s : Rng) (h : buf.length % 4 = 0)
    (hs : s.Valid) (p : ℕ) :
    ∃ v1 v2 v3 : ℚ,
      v1 = (Rng.range (-25) 25 ⟨s.stream, s.cursor + 3 * p⟩).1 ∧
      v2 = (Rng.range (-25) 25 ⟨s.stream, s.cursor + 3 * p + 1⟩).1 ∧
      v3 = (Rng.range (-25) 25 ⟨s.stream, s.cursor + 3 * p + 2⟩).1 ∧
      (-25 ≤ v1 ∧ v1 ≤ 25) ∧ (-25 ≤ v2 ∧ v2 ≤ 25) ∧ (-25 ≤ v3 ∧ v3 ≤ 25) ∧
      (addGrain "colorful" buf s).1.get? (4 * p) = (buf.get? (4 * p)).map (fun x => x + v1) ∧
      (addGrain "colorful" buf s).1.get? (4 * p + 1) = (buf.get? (4 * p + 1)).map (fun x => x + v2) ∧
      (addGrain "colorful" buf s).1.get? (4 * p + 2) = (buf.get? (4 * p + 2)).map (fun x => x + v3) ∧
      (addGrain "colorful" buf s).2.cursor = s.cursor + 3 * (buf.length / 4) := by
  obtain ⟨h1, h2, h3, _⟩ := colorGrain_get? buf s h p
  have m1 := Rng.range_mem (-25) 25 ⟨s.stream, s.cursor + 3 * p⟩ (by norm_num) hs
  have m2 := Rng.range_mem (-25) 25 ⟨s.stream, s.cursor + 3 * p + 1⟩ (by norm_num) hs
  have m3 := Rng.range_mem (-25) 25 ⟨s.stream, s.cursor + 3 * p + 2⟩ (by norm_num) hs
  exact ⟨_, _, _, rfl, rfl, rfl, m1, m2, m3, h1, h2, h3, (colorGrain_rng buf s).2⟩

/-- Witness for C7 at the buffer `[0, 0, 0, 0]`, constant-zero draw
stream, pixel 0. -/
theorem addGrain_colorful_spec_witness :
    ∃ v1 v2 v3 : ℚ,
      v1 = (Rng.range (-25) 25 ⟨fun _ => 0, 0⟩).1 ∧
      v2 = (Rng.range (-25) 25 ⟨fun _ => 0, 1⟩).1 ∧
      v3 = (Rng.range (-25) 25 ⟨fun _ => 0, 2⟩).1 ∧
      (-25 ≤ v1 ∧ v1 ≤ 25) ∧ (-25 ≤ v2 ∧ v2 ≤ 25) ∧ (-25 ≤ v3 ∧ v3 ≤ 25) ∧
      (addGrain "colorful" [0, 0, 0, 0] ⟨fun _ => 0, 0⟩).1.get? 0 =
        (([0, 0, 0, 0] : List ℚ).get? 0).map (fun x => x + v1) ∧
      (addGrain "colorful" [0, 0, 0, 0] ⟨fun _ => 0, 0⟩).1.get? 1 =
        (([0, 0, 0, 0] : List ℚ).get? 1).map (fun x => x + v2) ∧
      (addGrain "colorful" [0, 0, 0, 0] ⟨fun _ => 0, 0⟩).1.get? 2 =
        (([0, 0, 0, 0] : List ℚ).get? 2).map (fun x => x + v3) ∧
      (addGrain "colorful" [0, 0, 0, 0] ⟨fun _ => 0, 0⟩).2.cursor = 3 :=
  addGrain_colorful_spec [0, 0, 0, 0] ⟨fun _ => 0, 0⟩ (by decide)
    (fun n => by norm_num) 0

/-- Claim C8: `addGrain` is deterministic given the random source — two
runs with the same input buffer, same mode and the generator in the same
state produce identical results — and the only generator state it
touches is the cursor: the draw stream comes out unchanged. -/
theorem addGrain_deterministic (style : String) (buf : List ℚ) (s1 s2 : Rng)
    (hstream : s1.stream = s2.stream) (hcursor : s1.cursor = s2.cursor) :
    addGrain style buf s1 = addGrain style buf s2 ∧
    (addGrain style buf s1).2.stream = s1.stream := by
  have hs : s1 = s2 := by
    cases s1; cases s2; simp_all
  subst hs
  refine ⟨rfl, ?_⟩
  unfold addGrain
  split
  · exact (colorGrain_rng buf s1).1
  · exact (parallelGrain_rng buf s1).1
  · exact (redGrain_rng buf s1).1
  · rfl
  · rfl

/-- Witness for C8 at mode `"invert"`, buffer `[1, 2, 3, 4]` and two
syntactically equal generator states. -/
theorem addGrain_deterministic_witness :
    addGrain "invert" [1, 2, 3, 4] ⟨fun _ => 0, 0⟩ =
      addGrain "invert" [1, 2, 3, 4] ⟨fun _ => 0, 0⟩ ∧
    (addGrain "invert" [1, 2, 3, 4] ⟨fun _ => 0, 0⟩).2.stream =
      (⟨fun _ => 0, 0⟩ : Rng).stream :=
  addGrain_deterministic "invert" [1, 2, 3, 4] ⟨fun _ => 0, 0⟩ ⟨fun _ => 0, 0⟩ rfl rfl

/-- Claim C10: `initiateSeed` passes the shared seeded generator state
through untouched (it only reads `Math.random`, a separate source); for
a truthy seed it returns `String(seed)`, and for a falsy seed (such as
0) it returns the decimal string of an integer in `[0, 999999]`, given
that the host's number-to-string conversion prints naturals in decimal
and the `Math.random` draw lies in `[0, 1)`. -/
theorem initiateSeed_spec (f : ℚ → String) (seed : JSVal) (m : ℚ) (s : Rng)
    (hf : ∀ n : ℕ, f n = toString n) (hm : 0 ≤ m) (hm1 : m < 1) :
    (initiateSeed f seed m s).2 = s ∧
    (seed.falsy = false → (initiateSeed f seed m s).1 = jsString f seed) ∧
    (seed.falsy = true → ∃ k : ℕ, k ≤ 999999 ∧ (initiateSeed f seed m s).1 = toString k) := by
  refine ⟨?_, ?_, ?_⟩
  · unfold initiateSeed
    split <;> rfl
  · intro hfalse
    unfold initiateSeed
    simp [hfalse]
  · intro htrue
    have h0 : (0 : ℤ) ≤ ⌊m * 1000000⌋ := Int.floor_nonneg.mpr (by positivity)
    have h1 : ⌊m * 1000000⌋ < 1000000 := by
      rw [Int.floor_lt]
      push_cast
      nlinarith
    refine ⟨(⌊m * 1000000⌋).toNat, by omega, ?_⟩
    unfold initiateSeed
    simp only [htrue, if_true]
    have h2 : ((⌊m * 1000000⌋ : ℤ) : ℚ) = (((⌊m * 1000000⌋).toNat : ℕ) : ℚ) := by
      exact_mod_cast (Int.toNat_of_nonneg h0).symm
    rw [h2]
    exact hf _

/-- Witness for C10 at the falsy seed `0`, `Math.random` draw `1/2`. -/
theorem initiateSeed_spec_witness :
    (initiateSeed (fun q => toString q.num.toNat) (JSVal.num 0) (1/2) ⟨fun _ => 0, 0⟩).2 =
      (⟨fun _ => 0, 0⟩ : Rng) ∧
    ((JSVal.num 0).falsy = false →
      (initiateSeed (fun q => toString q.num.toNat) (JSVal.num 0) (1/2) ⟨fun _ => 0, 0⟩).1 =
        jsString (fun q => toString q.num.toNat) (JSVal.num 0)) ∧
    ((JSVal.num 0).falsy = true → ∃ k : ℕ, k ≤ 999999 ∧
      (initiateSeed (fun q => toString q.num.toNat) (JSVal.num 0) (1/2) ⟨fun _ => 0, 0⟩).1 =
        toString k) :=
  initiateSeed_spec (fun q => toString q.num.toNat) (JSVal.num 0) (1/2) ⟨fun _ => 0, 0⟩
    (fun n => by simp) (by norm_num) (by norm_num)
